import Mathlib

/-!
Verification of the FaultLine fault-injection proxy (Go).

Shallow embedding of the core data model and operations:
* `state/state.go` — rules, the rule store, prefix matching
  (`FindRuleForTarget`), file persistence (`saveToFile`, `loadFromFile`,
  `CheckAndReloadIfModified`);
* `proxy/proxy.go` — target-URL reconstruction (`HandleRequest`), failure
  injection (`injectFailure`), and the reverse-proxy request rewrite
  (`director`);
* `tcp/tcp.go` — the per-connection handler (`handleConn`) and the faulty
  stream copier (`copyWithFaults`).

Go `float64` probabilities and RNG draws are modelled as rationals `ℚ`
(`rand.Float64()` yields a value in `[0,1)`; only order comparisons are used).
Go machine integers are modelled as `Int`/`Nat` (counters here stay far from
the 64-bit range, so no wraparound is modelled). Wall-clock sleeping is
recorded as accumulated durations rather than real time. Network endpoints
are modelled by explicit event lists, and the byte sink of a stream copier
is modelled as reliable (writes deliver the whole chunk and do not fail).
-/

namespace FaultLine

/-- `state.Failure` from `state/state.go`: the failure variant of a rule,
kept flat with a `type` tag, exactly as in the Go struct (the `probability`
field is used by the `flaky` branch of the proxy). -/
structure Failure where
  type : String
  latencyMs : Int
  errorCode : Int
  probability : ℚ
deriving Repr, DecidableEq

/-- `state.Rule` from `state/state.go`. -/
structure Rule where
  id : String
  target : String
  failure : Failure
  enabled : Bool
  category : String
deriving Repr, DecidableEq

/-! ## Rule matching (`state/state.go`, `FindRuleForTarget`) -/

/-- The match test of `FindRuleForTarget` (state/state.go:88): the rule is
enabled, its target is non-empty, the queried URL is at least as long, and
the URL's leading segment of the target's length equals the target. -/
def ruleMatches (targetURL : String) (rule : Rule) : Bool :=
  rule.enabled && decide (0 < rule.target.length) &&
    decide (rule.target.length ≤ targetURL.length) &&
    (targetURL.take rule.target.length == rule.target)

/-- `FindRuleForTarget` (state/state.go:82–95): the first rule of the store
(in iteration order) passing `ruleMatches`, if any.  The Go map's iteration
order is unspecified; the store is modelled as a list in some such order. -/
def FindRuleForTarget (rules : List Rule) (targetURL : String) : Option Rule :=
  rules.find? (ruleMatches targetURL)

/-! ## HTTP proxy (`proxy/proxy.go`) -/

/-- `strings.HasPrefix`: `len(s) >= len(prefix) && s[0:len(prefix)] == prefix`. -/
def hasPfx (s pre : String) : Bool :=
  decide (pre.length ≤ s.length) && (s.take pre.length == pre)

/-- `strings.TrimPrefix`: drop `pre` from the front of `s` once when present. -/
def trimPfx (s pre : String) : String :=
  if hasPfx s pre then s.drop pre.length else s

/-- Target reconstruction in `HandleRequest` (proxy/proxy.go): strip one
leading `/` from the request path and re-append the raw query after `?`
when non-empty. -/
def reconstructTarget (path rawQuery : String) : String :=
  let t := trimPfx path "/"
  if rawQuery ≠ "" then t ++ "?" ++ rawQuery else t

/-- Outcome of the HTTP proxy on one request: either a synthetic response
written directly to the client (no upstream contact), or a forward to the
given target through the reverse proxy after sleeping `sleptMs`. -/
inductive ProxyAction where
  | respond (status : Int) (body : String)
  | forward (target : String) (sleptMs : Int)
deriving Repr, DecidableEq

/-- `injectFailure` (proxy/proxy.go): switch on the rule's failure type.
`latency` sleeps then forwards; `error` writes the rule's status code and a
fixed body; `flaky` draws `u` (a `rand.Float64()` value) and responds 503
with a fixed body when `u < probability`, otherwise forwards; any other
type forwards normally.  `targetURL` is recomputed from the path alone
(without the query), as in the Go code. -/
def injectFailure (rule : Rule) (path : String) (u : ℚ) : ProxyAction :=
  let targetURL := trimPfx path "/"
  if rule.failure.type = "latency" then
    .forward targetURL rule.failure.latencyMs
  else if rule.failure.type = "error" then
    .respond rule.failure.errorCode "FaultLine: Injected Error Response"
  else if rule.failure.type = "flaky" then
    if u < rule.failure.probability then
      .respond 503 "FaultLine: Injected Flaky Error"
    else
      .forward targetURL 0
  else
    .forward targetURL 0

/-- `HandleRequest` (proxy/proxy.go): reconstruct the target URL from the
path and raw query, look for a matching enabled rule, and either inject the
failure or forward normally.  `u` is the RNG draw consumed by a `flaky`
rule. -/
def HandleRequest (rules : List Rule) (path rawQuery : String) (u : ℚ) :
    ProxyAction :=
  let target := reconstructTarget path rawQuery
  match FindRuleForTarget rules target with
  | some rule => injectFailure rule path u
  | none => .forward target 0

/-! ## Reverse-proxy request rewrite (`serveReverseProxy`'s director) -/

/-- The components of `net/url.URL` used by the director. -/
structure URL where
  scheme : String
  host : String
  path : String
  rawQuery : String
deriving Repr, DecidableEq

/-- The components of `net/http.Request` touched by the director. -/
structure Request where
  url : URL
  host : String
  requestURI : String
deriving Repr, DecidableEq

/-- The `Director` closure of `serveReverseProxy` (proxy/proxy.go:116–135):
rewrite the outgoing request's URL scheme, host, path and query to the
parsed target `remote`, set the request host to the target host, and clear
the request URI. -/
def director (remote : URL) (req : Request) : Request :=
  { req with
    url := { req.url with
      scheme := remote.scheme
      host := remote.host
      path := remote.path
      rawQuery := remote.rawQuery }
    host := remote.host
    requestURI := "" }

/-! ## Rule store with persistence (`state/state.go`, file-backed version) -/

/-- Insertion step of the sort in `getRulesInternal` (`sort.Slice` with
`rules[i].ID < rules[j].ID`). -/
def insertById (r : Rule) : List Rule → List Rule
  | [] => [r]
  | x :: xs => if r.id < x.id then r :: x :: xs else x :: insertById r xs

/-- Ascending sort by rule id, as produced by `getRulesInternal`. -/
def sortById : List Rule → List Rule
  | [] => []
  | x :: xs => insertById x (sortById xs)

/-- `RuleState` (state/state.go): the in-memory rule map (modelled as a list
keyed by `Rule.id`, in some iteration order), the backing-file path, the
modification time recorded at the last load, and the parsed content of the
backing file after the last successful write (`none` when never written). -/
structure RuleState where
  rules : List Rule
  dataFile : String
  fileModTime : Int
  savedFile : Option (List Rule)
deriving Repr, DecidableEq

/-- Map lookup `rs.rules[id]`. -/
def lookupRule (rs : RuleState) (id : String) : Option Rule :=
  rs.rules.find? (fun r => r.id == id)

/-- `getRulesInternal` (state/state.go): all rules sorted by id. -/
def getRulesInternal (rs : RuleState) : List Rule :=
  sortById rs.rules

/-- `GetRules` (state/state.go): snapshot of the store, sorted by id. -/
def GetRules (rs : RuleState) : List Rule :=
  getRulesInternal rs

/-- `saveToFile` (state/state.go): skip when no backing file is configured,
otherwise overwrite the file with the sorted rule list.  The write is
modelled as succeeding. -/
def saveToFile (rs : RuleState) : RuleState :=
  if rs.dataFile = "" then rs
  else { rs with savedFile := some (getRulesInternal rs) }

/-- Map assignment `rs.rules[rule.ID] = rule`: replace the entry with the
same id when present, otherwise add the rule. -/
def mapInsert (rule : Rule) (rules : List Rule) : List Rule :=
  if rules.any (fun r => r.id == rule.id) then
    rules.map (fun r => if r.id == rule.id then rule else r)
  else
    rules ++ [rule]

/-- `AddRule` (state/state.go): insert by id, then persist. -/
def AddRule (rs : RuleState) (rule : Rule) : RuleState :=
  saveToFile { rs with rules := mapInsert rule rs.rules }

/-- `UpdateRule` (state/state.go): if no rule has the given id, return
`false` and leave the store untouched; otherwise replace the entry, persist,
and return `true`. -/
def UpdateRule (rs : RuleState) (rule : Rule) : Bool × RuleState :=
  match lookupRule rs rule.id with
  | none => (false, rs)
  | some _ =>
    (true, saveToFile { rs with rules := mapInsert rule rs.rules })

/-- Map deletion `delete(rs.rules, id)`. -/
def mapErase (id : String) (rules : List Rule) : List Rule :=
  rules.filter (fun r => !(r.id == id))

/-- `DeleteRule` (state/state.go): if no rule has the given id, return
`false` and leave the store untouched; otherwise remove it, persist, and
return `true`. -/
def DeleteRule (rs : RuleState) (id : String) : Bool × RuleState :=
  match lookupRule rs id with
  | none => (false, rs)
  | some _ =>
    (true, saveToFile { rs with rules := mapErase id rs.rules })

/-! ## Reload from the backing file -/

/-- Errors surfaced by `loadFromFile`/`CheckAndReloadIfModified`. -/
inductive StoreErr where
  | statFailed
  | readFailed
  | parseFailed
deriving Repr, DecidableEq

/-- One observation of the backing file, as seen through `os.Stat`,
`os.ReadFile` and `json.Unmarshal`: whether the file exists, whether `Stat`
fails with a non-not-exist error, its modification time, whether reading
fails, and the parse outcome of its content (`none` = malformed JSON). -/
structure FileObs where
  present : Bool
  statError : Bool
  modTime : Int
  readError : Bool
  parsed : Option (List Rule)
deriving Repr, DecidableEq

/-- Rebuild of the rule map in `loadFromFile`: a fresh map filled from the
parsed list in order (`rs.rules[rule.ID] = rule` for each). -/
def buildRuleMap (rules : List Rule) : List Rule :=
  rules.foldl (fun acc r => mapInsert r acc) []

/-- `loadFromFile` (state/state.go): a missing file leaves the store empty
and succeeds; stat/read/parse failures are returned with the in-memory
rules untouched; on success the modification time is recorded and the rule
map is rebuilt from the file's content. -/
def loadFromFile (rs : RuleState) (fs : FileObs) : Except StoreErr Unit × RuleState :=
  if ¬ fs.present then (.ok (), rs)
  else if fs.statError then (.error .statFailed, rs)
  else if fs.readError then (.error .readFailed, rs)
  else
    match fs.parsed with
    | none => (.error .parseFailed, rs)
    | some rules =>
      (.ok (), { rs with
        fileModTime := fs.modTime
        rules := buildRuleMap rules })

/-- `CheckAndReloadIfModified` (state/state.go): no-op without a backing
file or when the file is absent; stat failures are surfaced; the store is
reloaded only when the file's modification time is strictly newer than the
recorded load time. -/
def CheckAndReloadIfModified (rs : RuleState) (fs : FileObs) :
    Except StoreErr Unit × RuleState :=
  if rs.dataFile = "" then (.ok (), rs)
  else if ¬ fs.present then (.ok (), rs)
  else if fs.statError then (.error .statFailed, rs)
  else if rs.fileModTime < fs.modTime then loadFromFile rs fs
  else (.ok (), rs)

/-! ## TCP proxy (`tcp/tcp.go`) -/

/-- `config.TCPFaults` from `config/config.go`. -/
structure TCPFaults where
  latencyMs : Int
  dropProbability : ℚ
  resetProbability : ℚ
  bandwidthKbps : Int
  refuseConnections : Bool
deriving Repr, DecidableEq

/-- `dirStats` (tcp/tcp.go): per-direction counters of one proxied
connection.  Sleeps are recorded as accumulated milliseconds. -/
structure DirStats where
  bytes : Nat
  chunks : Nat
  drops : Nat
  writes : Nat
  latencySleepMs : Int
deriving Repr, DecidableEq

/-- The all-zero counter record a copier starts from. -/
def DirStats.zero : DirStats := ⟨0, 0, 0, 0, 0⟩

/-- One return of `src.Read`: the bytes read and whether the read also
reported EOF or another error (either makes the copier exit after
processing the chunk). -/
structure ReadEvent where
  chunk : List Nat
  err : Bool
deriving Repr, DecidableEq

/-- `copyWithFaults` (tcp/tcp.go:146–209) over a finite trace of reads.
Per chunk: sleep the configured latency; on a non-empty read, count the
chunk and — when `dropProbability > 0` — consume one RNG draw and drop the
chunk silently when the draw is below the probability, otherwise write it
(bandwidth throttling only sleeps and never alters the byte flow, so it is
not modelled; the destination is a reliable sink).  After processing a
chunk, exit when the read also returned an error.  Returns the final
counters and the bytes delivered to the destination. -/
def copyWithFaults (f : TCPFaults) :
    List ReadEvent → List ℚ → DirStats → List Nat → DirStats × List Nat
  | [], _, s, out => (s, out)
  | e :: rest, rng, s, out =>
    let s :=
      if 0 < f.latencyMs then
        { s with latencySleepMs := s.latencySleepMs + f.latencyMs }
      else s
    if 0 < e.chunk.length then
      let s := { s with chunks := s.chunks + 1 }
      if 0 < f.dropProbability then
        -- the RNG is consulted only under this guard (Go's `&&` short-circuits)
        if rng.headD 0 < f.dropProbability then
          let s := { s with drops := s.drops + 1 }
          if e.err then (s, out) else copyWithFaults f rest rng.tail s out
        else
          let s := { s with
            writes := s.writes + 1
            bytes := s.bytes + e.chunk.length }
          if e.err then (s, out ++ e.chunk)
          else copyWithFaults f rest rng.tail s (out ++ e.chunk)
      else
        let s := { s with
          writes := s.writes + 1
          bytes := s.bytes + e.chunk.length }
        if e.err then (s, out ++ e.chunk)
        else copyWithFaults f rest rng s (out ++ e.chunk)
    else
      if e.err then (s, out) else copyWithFaults f rest rng s out

/-- The bytes a copier's source produces: the concatenation of all chunks
up to and including the one accompanying the first erroring read. -/
def readBytes : List ReadEvent → List Nat
  | [] => []
  | e :: rest => if e.err then e.chunk else e.chunk ++ readBytes rest

/-- The number of non-empty chunks the source produces up to and including
the first erroring read. -/
def readChunks : List ReadEvent → Nat
  | [] => 0
  | e :: rest =>
    (if 0 < e.chunk.length then 1 else 0) + (if e.err then 0 else readChunks rest)

/-- Externally visible steps of `handleConn` (tcp/tcp.go:81–143) on one
accepted connection. -/
inductive ConnEvent where
  | sleepMs (n : Int)
  | closeClient
  | dialUpstream
  | proxyData
  | closeUpstream
deriving Repr, DecidableEq

/-- `handleConn` (tcp/tcp.go:81–143) as the trace of its steps: refusal
closes the client at once; otherwise sleep any initial latency, possibly
reset (close) after a draw against `resetProbability`, then dial the
upstream; on dial failure close the client, on success pipe the data and
close both sides. -/
def handleConn (f : TCPFaults) (resetDraw : ℚ) (dialOk : Bool) :
    List ConnEvent :=
  if f.refuseConnections then [.closeClient]
  else
    (if 0 < f.latencyMs then [.sleepMs f.latencyMs] else []) ++
    (if 0 < f.resetProbability ∧ resetDraw < f.resetProbability then
      [.closeClient]
    else
      .dialUpstream ::
        (if dialOk then [.proxyData, .closeClient, .closeUpstream]
         else [.closeClient]))

/-! ## Theorems -/

/-- A sample enabled error rule used by the witnesses below. -/
def rEx : Rule := ⟨"r1", "a", ⟨"error", 0, 503, 0⟩, true, "api"⟩

/-- C2: any rule returned by `FindRuleForTarget` is enabled, and its target
is a non-empty prefix of the queried target URL (never a disabled rule). -/
theorem findMatch_only_enabled (rules : List Rule) (targetURL : String)
    (rule : Rule) (h : FindRuleForTarget rules targetURL = some rule) :
    rule.enabled = true ∧ 0 < rule.target.length ∧
      rule.target.length ≤ targetURL.length ∧
      targetURL.take rule.target.length = rule.target := by
  have hp := List.find?_some h
  unfold ruleMatches at hp
  simp only [Bool.and_eq_true, decide_eq_true_eq, beq_iff_eq] at hp
  exact ⟨hp.1.1.1, hp.1.1.2, hp.1.2, hp.2⟩

/-- Witness for C2 at a concrete store and URL. -/
theorem findMatch_only_enabled_witness :
    rEx.enabled = true ∧ 0 < rEx.target.length ∧
      rEx.target.length ≤ ("ab" : String).length ∧
      ("ab" : String).take rEx.target.length = rEx.target :=
  findMatch_only_enabled [rEx] "ab" rEx (by decide)

/-- C9: `FindRuleForTarget` never returns a rule whose target is the empty
string, because the match test requires a non-empty target before the
prefix comparison; indeed `ruleMatches` rejects every rule with an empty
target outright. -/
theorem findMatch_rejects_empty_target (rules : List Rule)
    (targetURL : String) (rule : Rule)
    (h : FindRuleForTarget rules targetURL = some rule) :
    rule.target ≠ "" ∧
      ∀ r : Rule, r.target = "" → ruleMatches targetURL r = false := by
  constructor
  · intro he
    have hp := List.find?_some h
    unfold ruleMatches at hp
    simp only [Bool.and_eq_true, decide_eq_true_eq, beq_iff_eq] at hp
    have h0 : 0 < rule.target.length := hp.1.1.2
    rw [he] at h0
    simp at h0
  · intro r hr
    simp [ruleMatches, hr]

/-- Witness for C9 at a concrete store and URL. -/
theorem findMatch_rejects_empty_target_witness :
    rEx.target ≠ "" ∧
      ∀ r : Rule, r.target = "" → ruleMatches "ab" r = false :=
  findMatch_rejects_empty_target [rEx] "ab" rEx (by decide)

/-- C1: when the reconstructed target URL matches an enabled rule of failure
type `error`, the proxy responds with exactly the rule's error code and the
fixed body `FaultLine: Injected Error Response`, and never forwards the
request to an upstream. -/
theorem error_rule_injects (rules : List Rule) (path rawQuery : String)
    (u : ℚ) (rule : Rule)
    (hfind : FindRuleForTarget rules (reconstructTarget path rawQuery) = some rule)
    (htype : rule.failure.type = "error") :
    HandleRequest rules path rawQuery u =
      ProxyAction.respond rule.failure.errorCode
        "FaultLine: Injected Error Response" ∧
    ∀ t ms, HandleRequest rules path rawQuery u ≠ ProxyAction.forward t ms := by
  have hH : HandleRequest rules path rawQuery u =
      ProxyAction.respond rule.failure.errorCode
        "FaultLine: Injected Error Response" := by
    simp only [HandleRequest, hfind]
    simp [injectFailure, htype]
  exact ⟨hH, by simp [hH]⟩

/-- Witness for C1 at a concrete rule and request. -/
theorem error_rule_injects_witness :
    HandleRequest [rEx] "/ab" "" 0 =
      ProxyAction.respond rEx.failure.errorCode
        "FaultLine: Injected Error Response" ∧
    ∀ t ms, HandleRequest [rEx] "/ab" "" 0 ≠ ProxyAction.forward t ms :=
  error_rule_injects [rEx] "/ab" "" 0 rEx (by decide) (by decide)

/-- C3: when the reconstructed target URL matches an enabled `flaky` rule,
the proxy responds 503 with the fixed body `FaultLine: Injected Flaky Error`
exactly when the uniform draw `u ∈ [0,1)` is below the rule's probability,
and forwards normally otherwise; hence probability 0 never triggers the
flaky response and probability 1 always does. -/
theorem flaky_rule_behavior (rules : List Rule) (path rawQuery : String)
    (u : ℚ) (rule : Rule)
    (hfind : FindRuleForTarget rules (reconstructTarget path rawQuery) = some rule)
    (htype : rule.failure.type = "flaky")
    (hu0 : 0 ≤ u) (hu1 : u < 1) :
    (u < rule.failure.probability →
      HandleRequest rules path rawQuery u =
        ProxyAction.respond 503 "FaultLine: Injected Flaky Error") ∧
    (rule.failure.probability ≤ u →
      HandleRequest rules path rawQuery u =
        ProxyAction.forward (trimPfx path "/") 0) ∧
    (rule.failure.probability = 0 →
      HandleRequest rules path rawQuery u =
        ProxyAction.forward (trimPfx path "/") 0) ∧
    (rule.failure.probability = 1 →
      HandleRequest rules path rawQuery u =
        ProxyAction.respond 503 "FaultLine: Injected Flaky Error") := by
  have hbase : HandleRequest rules path rawQuery u =
      injectFailure rule path u := by
    simp only [HandleRequest, hfind]
  refine ⟨?_, ?_, ?_, ?_⟩
  · intro hlt
    rw [hbase]
    simp [injectFailure, htype, hlt]
  · intro hge
    rw [hbase]
    simp [injectFailure, htype, not_lt.mpr hge]
  · intro h0
    rw [hbase]
    simp [injectFailure, htype, h0, not_lt.mpr hu0]
  · intro h1
    rw [hbase]
    simp [injectFailure, htype, h1, hu1]

/-- A sample enabled flaky rule with probability 1. -/
def rFlakyEx : Rule := ⟨"r2", "a", ⟨"flaky", 0, 0, 1⟩, true, "api"⟩

/-- Witness for C3 at a concrete rule, request and draw. -/
theorem flaky_rule_behavior_witness :
    HandleRequest [rFlakyEx] "/ab" "" 0 =
      ProxyAction.respond 503 "FaultLine: Injected Flaky Error" :=
  (flaky_rule_behavior [rFlakyEx] "/ab" "" 0 rFlakyEx (by decide) (by decide)
    (by decide) (by decide)).2.2.2 (by decide)

/-- C5: the director rewrites the outgoing request's scheme, host, path and
query to those of the parsed target, sets the request host to the target
host, clears the request URI, and in particular the outgoing path is the
target's path — never the incoming path embedding the full target URL
(whenever the two differ). -/
theorem director_rewrite (remote : URL) (req : Request) :
    (director remote req).url.scheme = remote.scheme ∧
    (director remote req).url.host = remote.host ∧
    (director remote req).url.path = remote.path ∧
    (director remote req).url.rawQuery = remote.rawQuery ∧
    (director remote req).host = remote.host ∧
    (director remote req).requestURI = "" ∧
    (remote.path ≠ req.url.path →
      (director remote req).url.path ≠ req.url.path) := by
  refine ⟨rfl, rfl, rfl, rfl, rfl, rfl, ?_⟩
  intro hne
  simpa [director] using hne

/-- Witness for C5: on a request whose incoming path embeds the full target
URL, the rewritten path is the target's path, not the incoming one. -/
theorem director_rewrite_witness :
    (director ⟨"https", "h", "/p", ""⟩
        ⟨⟨"http", "proxy", "/https://h/p", ""⟩, "proxy", "/https://h/p"⟩).url.path ≠
      (⟨⟨"http", "proxy", "/https://h/p", ""⟩, "proxy", "/https://h/p"⟩ :
        Request).url.path :=
  (director_rewrite ⟨"https", "h", "/p", ""⟩
      ⟨⟨"http", "proxy", "/https://h/p", ""⟩, "proxy", "/https://h/p"⟩).2.2.2.2.2.2
    (by decide)

/-- C8: under a rule with `refuseConnections = true`, the handler closes the
client immediately — its whole trace is the single close — and never
attempts a dial to the upstream. -/
theorem refuse_no_dial (f : TCPFaults) (resetDraw : ℚ) (dialOk : Bool)
    (h : f.refuseConnections = true) :
    handleConn f resetDraw dialOk = [ConnEvent.closeClient] ∧
    ConnEvent.dialUpstream ∉ handleConn f resetDraw dialOk := by
  refine ⟨by simp [handleConn, h], ?_⟩
  simp [handleConn, h]

/-- Witness for C8 at a concrete refusing fault record. -/
theorem refuse_no_dial_witness :
    handleConn ⟨0, 0, 0, 0, true⟩ 0 true = [ConnEvent.closeClient] ∧
    ConnEvent.dialUpstream ∉ handleConn ⟨0, 0, 0, 0, true⟩ 0 true :=
  refuse_no_dial ⟨0, 0, 0, 0, true⟩ 0 true rfl

/-! ### The rule store's mutation contract -/

/-- Membership is preserved by the insertion step of the id sort. -/
lemma mem_insertById {a r : Rule} :
    ∀ {l : List Rule}, a ∈ insertById r l ↔ a = r ∨ a ∈ l := by
  intro l
  induction l with
  | nil => simp [insertById]
  | cons x xs ih =>
    by_cases h : r.id < x.id
    · simp [insertById, h]
    · simp only [insertById, if_neg h, List.mem_cons, ih]
      tauto

/-- Sorting by id neither adds nor removes rules. -/
lemma mem_sortById {a : Rule} : ∀ {l : List Rule}, a ∈ sortById l ↔ a ∈ l := by
  intro l
  induction l with
  | nil => simp [sortById]
  | cons x xs ih => simp [sortById, mem_insertById, ih]

/-- Assigning a rule into the map makes it a member. -/
lemma self_mem_mapInsert (rule : Rule) (rules : List Rule) :
    rule ∈ mapInsert rule rules := by
  unfold mapInsert
  by_cases h : rules.any (fun r => r.id == rule.id) = true
  · rw [if_pos h]
    obtain ⟨r0, hm, hp⟩ := List.any_eq_true.mp h
    refine List.mem_map.mpr ⟨r0, hm, ?_⟩
    rw [if_pos hp]
  · rw [if_neg h]
    simp

/-- C6: mutations keyed by an absent id are no-ops returning `false`; a
successful update makes the rule visible in `GetRules` with the backing
file rewritten to the new snapshot before the call returns; a successful
delete removes every rule with the id and rewrites the file; an add always
makes the rule visible and rewrites the file. -/
theorem store_mutation_contract (rs : RuleState) (rule : Rule) (id : String)
    (hfile : rs.dataFile ≠ "") :
    (lookupRule rs rule.id = none → UpdateRule rs rule = (false, rs)) ∧
    (lookupRule rs id = none → DeleteRule rs id = (false, rs)) ∧
    ((UpdateRule rs rule).1 = true →
      rule ∈ GetRules (UpdateRule rs rule).2 ∧
      (UpdateRule rs rule).2.savedFile = some (GetRules (UpdateRule rs rule).2)) ∧
    ((DeleteRule rs id).1 = true →
      (∀ r ∈ GetRules (DeleteRule rs id).2, r.id ≠ id) ∧
      (DeleteRule rs id).2.savedFile = some (GetRules (DeleteRule rs id).2)) ∧
    rule ∈ GetRules (AddRule rs rule) ∧
    (AddRule rs rule).savedFile = some (GetRules (AddRule rs rule)) := by
  refine ⟨?_, ?_, ?_, ?_, ?_, ?_⟩
  · intro h
    simp [UpdateRule, h]
  · intro h
    simp [DeleteRule, h]
  · intro h
    cases hl : lookupRule rs rule.id with
    | none => simp [UpdateRule, hl] at h
    | some r0 =>
      have h2 : (UpdateRule rs rule).2 =
          saveToFile { rs with rules := mapInsert rule rs.rules } := by
        simp [UpdateRule, hl]
      rw [h2]
      refine ⟨?_, ?_⟩
      · simp [saveToFile, hfile, GetRules, getRulesInternal, mem_sortById,
          self_mem_mapInsert]
      · simp [saveToFile, hfile, GetRules, getRulesInternal]
  · intro h
    cases hl : lookupRule rs id with
    | none => simp [DeleteRule, hl] at h
    | some r0 =>
      have h2 : (DeleteRule rs id).2 =
          saveToFile { rs with rules := mapErase id rs.rules } := by
        simp [DeleteRule, hl]
      rw [h2]
      refine ⟨?_, ?_⟩
      · intro r hr
        simp only [saveToFile, hfile, if_neg (by simpa using hfile), GetRules,
          getRulesInternal, mem_sortById] at hr
        have := (List.mem_filter.mp hr).2
        simpa using this
      · simp [saveToFile, hfile, GetRules, getRulesInternal]
  · simp [AddRule, saveToFile, hfile, GetRules, getRulesInternal, mem_sortById,
      self_mem_mapInsert]
  · simp [AddRule, saveToFile, hfile, GetRules, getRulesInternal]

/-- Witness for C6 on a concrete one-rule store. -/
theorem store_mutation_contract_witness :
    UpdateRule ⟨[rEx], "faultline-rules.json", 0, none⟩ rFlakyEx =
      (false, ⟨[rEx], "faultline-rules.json", 0, none⟩) :=
  (store_mutation_contract ⟨[rEx], "faultline-rules.json", 0, none⟩ rFlakyEx "zz"
    (by decide)).1 (by decide)

/-! ### Reload from the backing file -/

/-- C7: `CheckAndReloadIfModified` leaves the store untouched unless the
file's modification time is strictly newer than the recorded load time; on
a strictly newer file it reloads, replacing the in-memory rule set entirely
with the file's content and recording the new modification time; read and
parse failures are returned to the caller with the in-memory rules left
unchanged. -/
theorem reload_contract (rs : RuleState) (fs : FileObs) :
    (¬ rs.fileModTime < fs.modTime → (CheckAndReloadIfModified rs fs).2 = rs) ∧
    (rs.dataFile ≠ "" → fs.present = true → fs.statError = false →
      fs.readError = false → ∀ l, fs.parsed = some l →
      rs.fileModTime < fs.modTime →
      CheckAndReloadIfModified rs fs =
        (.ok (), { rs with fileModTime := fs.modTime, rules := buildRuleMap l })) ∧
    (rs.dataFile ≠ "" → fs.present = true → fs.statError = false →
      fs.readError = true → rs.fileModTime < fs.modTime →
      CheckAndReloadIfModified rs fs = (.error .readFailed, rs)) ∧
    (rs.dataFile ≠ "" → fs.present = true → fs.statError = false →
      fs.readError = false → fs.parsed = none → rs.fileModTime < fs.modTime →
      CheckAndReloadIfModified rs fs = (.error .parseFailed, rs)) := by
  refine ⟨?_, ?_, ?_, ?_⟩
  · intro h
    unfold CheckAndReloadIfModified
    split_ifs <;> rfl
  · intro hfile hp hs hr l hl hn
    simp [CheckAndReloadIfModified, loadFromFile, hfile, hp, hs, hr, hl, hn]
  · intro hfile hp hs hr hn
    simp [CheckAndReloadIfModified, loadFromFile, hfile, hp, hs, hr, hn]
  · intro hfile hp hs hr hl hn
    simp [CheckAndReloadIfModified, loadFromFile, hfile, hp, hs, hr, hl, hn]

/-- Witness for C7: a strictly newer, well-formed file is loaded, replacing
the in-memory set. -/
theorem reload_contract_witness :
    CheckAndReloadIfModified ⟨[rEx], "faultline-rules.json", 0, none⟩
        ⟨true, false, 5, false, some [rFlakyEx]⟩ =
      (.ok (), ⟨buildRuleMap [rFlakyEx], "faultline-rules.json", 5, none⟩) :=
  (reload_contract ⟨[rEx], "faultline-rules.json", 0, none⟩
      ⟨true, false, 5, false, some [rFlakyEx]⟩).2.1 (by decide) rfl rfl rfl
    [rFlakyEx] rfl (by decide)

/-! ### The stream copier -/

/-- With drops disabled and no per-chunk latency, the copier appends to the
output exactly the bytes its source produces, and the byte counter advances
by their number — for any starting counters and RNG stream. -/
lemma copy_no_faults_general (f : TCPFaults)
    (hd : f.dropProbability = 0) (hl : f.latencyMs = 0) :
    ∀ (reads : List ReadEvent) (rng : List ℚ) (s : DirStats) (out : List Nat),
      (copyWithFaults f reads rng s out).2 = out ++ readBytes reads ∧
      (copyWithFaults f reads rng s out).1.bytes
        = s.bytes + (readBytes reads).length := by
  intro reads
  induction reads with
  | nil =>
    intro rng s out
    simp [copyWithFaults, readBytes]
  | cons e rest ih =>
    intro rng s out
    by_cases hc : 0 < e.chunk.length
    · by_cases he : e.err = true
      · simp [copyWithFaults, hl, hd, hc, he, readBytes]
      · have hstep : copyWithFaults f (e :: rest) rng s out =
            copyWithFaults f rest rng
              { s with
                chunks := s.chunks + 1
                writes := s.writes + 1
                bytes := s.bytes + e.chunk.length } (out ++ e.chunk) := by
          simp [copyWithFaults, hl, hd, hc, he]
        have h1 := ih rng
          { s with
            chunks := s.chunks + 1
            writes := s.writes + 1
            bytes := s.bytes + e.chunk.length } (out ++ e.chunk)
        rw [hstep]
        constructor
        · rw [h1.1]
          simp [readBytes, he, List.append_assoc]
        · rw [h1.2]
          simp [readBytes, he, Nat.add_assoc]
    · have hnil : e.chunk = [] := by
        simpa using List.eq_nil_of_length_eq_zero (Nat.eq_zero_of_not_pos hc)
      by_cases he : e.err = true
      · simp [copyWithFaults, hl, hc, he, readBytes, hnil]
      · have hstep : copyWithFaults f (e :: rest) rng s out =
            copyWithFaults f rest rng s out := by
          simp [copyWithFaults, hl, hc, he]
        have h1 := ih rng s out
        rw [hstep]
        constructor
        · rw [h1.1]
          simp [readBytes, he, hnil]
        · rw [h1.2]
          simp [readBytes, he, hnil]

/-- C4: with `dropProbability = 0`, `bandwidthKbps = 0` and `latencyMs = 0`,
one direction's copier delivers to its destination exactly the bytes read
from its source, in order, and its byte counter equals their number.  Each
direction of a connection runs its own copier, so the two directions are
covered independently. -/
theorem copy_no_faults_delivers (f : TCPFaults) (reads : List ReadEvent)
    (rng : List ℚ) (hd : f.dropProbability = 0) (hb : f.bandwidthKbps = 0)
    (hl : f.latencyMs = 0) :
    (copyWithFaults f reads rng DirStats.zero []).2 = readBytes reads ∧
    (copyWithFaults f reads rng DirStats.zero []).1.bytes
      = (readBytes reads).length := by
  have h := copy_no_faults_general f hd hl reads rng DirStats.zero []
  simpa [DirStats.zero] using h

/-- Witness for C4 on a concrete two-read trace ending in EOF. -/
theorem copy_no_faults_delivers_witness :
    (copyWithFaults ⟨0, 0, 0, 0, false⟩ [⟨[1, 2], false⟩, ⟨[3], true⟩] []
        DirStats.zero []).2 = readBytes [⟨[1, 2], false⟩, ⟨[3], true⟩] ∧
    (copyWithFaults ⟨0, 0, 0, 0, false⟩ [⟨[1, 2], false⟩, ⟨[3], true⟩] []
        DirStats.zero []).1.bytes
      = (readBytes [⟨[1, 2], false⟩, ⟨[3], true⟩]).length :=
  copy_no_faults_delivers ⟨0, 0, 0, 0, false⟩ [⟨[1, 2], false⟩, ⟨[3], true⟩] []
    rfl rfl rfl

/-- For any fault configuration and RNG stream, every non-empty chunk the
source produces — including the one accompanying the final erroring read —
bumps the chunk counter, and is accounted for as exactly one drop or one
write. -/
lemma copy_counters_general (f : TCPFaults) :
    ∀ (reads : List ReadEvent) (rng : List ℚ) (s : DirStats) (out : List Nat),
      (copyWithFaults f reads rng s out).1.chunks = s.chunks + readChunks reads ∧
      (copyWithFaults f reads rng s out).1.drops
          + (copyWithFaults f reads rng s out).1.writes
        = s.drops + s.writes + readChunks reads := by
  intro reads
  induction reads with
  | nil =>
    intro rng s out
    simp [copyWithFaults, readChunks]
  | cons e rest ih =>
    intro rng s out
    simp only [copyWithFaults]
    set s1 := if 0 < f.latencyMs then
      { s with latencySleepMs := s.latencySleepMs + f.latencyMs } else s with hs1
    have hch : s1.chunks = s.chunks := by rw [hs1]; split <;> rfl
    have hdr : s1.drops = s.drops := by rw [hs1]; split <;> rfl
    have hwr : s1.writes = s.writes := by rw [hs1]; split <;> rfl
    by_cases hc : 0 < e.chunk.length
    · by_cases hdp : 0 < f.dropProbability
      · by_cases hdraw : rng.head?.getD 0 < f.dropProbability
        · by_cases he : e.err = true
          · simp [hc, hdp, List.headD_eq_head?, hdraw, he, readChunks, hch,
              hdr, hwr]
            omega
          · have h1 := ih rng.tail
              { s1 with chunks := s1.chunks + 1, drops := s1.drops + 1 } out
            simp only [hc, hdp, List.headD_eq_head?, hdraw, he, if_true,
              if_pos, Bool.false_eq_true, if_false, readChunks,
              if_neg (by simp [he] : ¬ e.err = true)]
            refine ⟨?_, ?_⟩
            · rw [h1.1]
              simp [hch, readChunks, hc, he]
              omega
            · rw [h1.2]
              simp [hdr, hwr, readChunks, hc, he]
              omega
        · by_cases he : e.err = true
          · simp [hc, hdp, List.headD_eq_head?, hdraw, he, readChunks, hch,
              hdr, hwr]
            omega
          · have h1 := ih rng.tail
              { s1 with
                chunks := s1.chunks + 1
                writes := s1.writes + 1
                bytes := s1.bytes + e.chunk.length } (out ++ e.chunk)
            simp only [hc, hdp, List.headD_eq_head?, hdraw, he, if_true,
              if_pos, Bool.false_eq_true, if_false, readChunks,
              if_neg (by simp [he] : ¬ e.err = true)]
            refine ⟨?_, ?_⟩
            · rw [h1.1]
              simp [hch, readChunks, hc, he]
              omega
            · rw [h1.2]
              simp [hdr, hwr, readChunks, hc, he]
              omega
      · by_cases he : e.err = true
        · simp [hc, hdp, he, readChunks, hch, hdr, hwr]
          omega
        · have h1 := ih rng
            { s1 with
              chunks := s1.chunks + 1
              writes := s1.writes + 1
              bytes := s1.bytes + e.chunk.length } (out ++ e.chunk)
          simp only [hc, hdp, he, if_true, if_pos, Bool.false_eq_true,
            if_false, readChunks, if_neg (by simp [he] : ¬ e.err = true)]
          refine ⟨?_, ?_⟩
          · rw [h1.1]
            simp [hch, readChunks, hc, he]
            omega
          · rw [h1.2]
            simp [hdr, hwr, readChunks, hc, he]
            omega
    · by_cases he : e.err = true
      · simp [hc, he, readChunks, hch, hdr, hwr]
      · have h1 := ih rng s1 out
        simp only [hc, he, Bool.false_eq_true, if_false, readChunks,
          if_neg (by simp [he] : ¬ e.err = true)]
        refine ⟨?_, ?_⟩
        · rw [h1.1]
          simp [hch, readChunks, hc, he]
        · rw [h1.2]
          simp [hdr, hwr, readChunks, hc, he]

/-- Chunk count of a trace that ends with its only erroring read: all
non-empty chunks of the prefix plus the final read's chunk when non-empty. -/
lemma readChunks_append_final :
    ∀ (init : List ReadEvent) (e : ReadEvent),
      (∀ x ∈ init, x.err = false) →
      readChunks (init ++ [e])
        = readChunks init + (if 0 < e.chunk.length then 1 else 0) := by
  intro init
  induction init with
  | nil =>
    intro e _
    simp only [List.nil_append, readChunks]
    split <;> split <;> omega
  | cons x xs ih =>
    intro e h
    have hx : x.err = false := h x (by simp)
    have hrest := ih e (fun y hy => h y (by simp [hy]))
    simp only [List.cons_append, readChunks, hx, Bool.false_eq_true,
      if_false, List.append_eq, hrest]
    omega

/-- C10: a non-empty chunk returned together with an EOF or error is still
processed before the copier exits: the chunk counter equals the number of
non-empty chunks up to and including the erroring read, every counted chunk
is either written or counted as a drop, and in particular a trace whose
final read returns bytes along with its error has that final chunk
accounted for — never silently discarded. -/
theorem copy_processes_final_chunk (f : TCPFaults) (reads : List ReadEvent)
    (rng : List ℚ) :
    (copyWithFaults f reads rng DirStats.zero []).1.chunks = readChunks reads ∧
    (copyWithFaults f reads rng DirStats.zero []).1.drops
        + (copyWithFaults f reads rng DirStats.zero []).1.writes
      = readChunks reads ∧
    ∀ (init : List ReadEvent) (e : ReadEvent),
      reads = init ++ [e] → (∀ x ∈ init, x.err = false) →
      0 < e.chunk.length →
      (copyWithFaults f reads rng DirStats.zero []).1.drops
          + (copyWithFaults f reads rng DirStats.zero []).1.writes
        = readChunks init + 1 := by
  have h := copy_counters_general f reads rng DirStats.zero []
  refine ⟨by simpa [DirStats.zero] using h.1,
    by simpa [DirStats.zero] using h.2, ?_⟩
  intro init e hsplit hinit hc
  have h2 : (copyWithFaults f reads rng DirStats.zero []).1.drops
      + (copyWithFaults f reads rng DirStats.zero []).1.writes
      = readChunks reads := by simpa [DirStats.zero] using h.2
  rw [h2, hsplit, readChunks_append_final init e hinit, if_pos hc]

/-- Witness for C10: with certain drops, the final one-byte chunk arriving
with EOF is counted as a drop rather than discarded unaccounted. -/
theorem copy_processes_final_chunk_witness :
    (copyWithFaults ⟨0, 1, 0, 0, false⟩ [⟨[7], false⟩, ⟨[9], true⟩] [0, 0]
        DirStats.zero []).1.drops
      + (copyWithFaults ⟨0, 1, 0, 0, false⟩ [⟨[7], false⟩, ⟨[9], true⟩] [0, 0]
        DirStats.zero []).1.writes
      = readChunks [⟨[7], false⟩] + 1 :=
  (copy_processes_final_chunk ⟨0, 1, 0, 0, false⟩ [⟨[7], false⟩, ⟨[9], true⟩]
      [0, 0]).2.2 [⟨[7], false⟩] ⟨[9], true⟩ rfl (by decide) (by decide)

end FaultLine
